import Mathlib

namespace DepInject

/-! A shallow embedding of the dependency-injection container in
`src/depinject.h`.  C++ type tokens (`std::type_info`) are modelled as
natural numbers; token 0 is reserved for
`depInject_unspecified_component`.  Heap instances are modelled as
allocation indices into a log of constructed instances (`World.insts`),
so distinctness of `shared_ptr` values becomes distinctness of indices,
and each log entry records the implementation type that was constructed
together with the instance indices passed to its constructor.  The
compile-time data supplied by the `INJECT` macro (ordered constructor
dependency identities) and by `type_name` is a `TypeUniverse`.
Exceptions become error values threaded through the resolution
functions; the unbounded C++ recursion becomes a fuel parameter, with
`.fuelOut` marking fuel exhaustion (a modelling artefact: the theorems
show enough fuel always exists). -/

abbrev TypeTok := Nat

/-- Mirrors `component_type`: a type token plus an optional display name
(the empty string plays the role of "no custom name"). -/
structure component_type where
  typeInfo : TypeTok
  customName : String
deriving Repr, DecidableEq

/-- Mirrors `operator==(const component_type&, const component_type&)`:
equality compares only the type tokens. -/
def ctEq (a b : component_type) : Bool :=
  a.typeInfo == b.typeInfo

/-- Mirrors `component_type_hash`: the hash of an identity is
`typeInfo.hash_code()`, i.e. an implementation-defined function `hc` of
the type token alone. -/
def component_type_hash (hc : TypeTok → Nat) (t : component_type) : Nat :=
  hc t.typeInfo

/-- The two runtime exceptions, `ComponentNotFoundException` and
`CircularDependencyFound`; each carries the `component_type` it was
constructed from (whose name appears in the message). -/
inductive DIError where
  | componentNotFound (t : component_type)
  | circularDependencyFound (t : component_type)
deriving Repr, DecidableEq

/-- Mirrors `InstanceStorage<TImplementation, TFactory>`: the
implementation type token (fixing the factory), the `mIsSingleton` flag
and the `mInstance` cache (`none` = null pointer). -/
structure Storage where
  impl : TypeTok
  isSingleton : Bool
  cached : Option Nat
deriving Repr, DecidableEq

def dfltStorage : Storage := ⟨0, false, none⟩

/-- The mutable heap shared by all containers: the storages created by
`to()` calls (`shared_ptr<InstanceStorage>` objects, referred to by
index), and the log of instances constructed so far (an entry records
the implementation type and the constructor-argument instances). -/
structure World where
  storages : List Storage
  insts : List (TypeTok × List Nat)
deriving Repr, DecidableEq

def World.storAt (w : World) (j : Nat) : Storage :=
  w.storages.getD j dfltStorage

/-- Mirrors the `mInstance = createInstance(context)` assignment. -/
def World.setCached (w : World) (sid i : Nat) : World :=
  { w with storages := w.storages.set sid { w.storAt sid with cached := some i } }

/-- Mirrors `StorageConfiguration::InSingletonScope` /
`InstanceStorage::setSingleton(true)`. -/
def World.markSingleton (w : World) (sid : Nat) : World :=
  { w with storages := w.storages.set sid { w.storAt sid with isSingleton := true } }

/-- The compile-time data of the C++ program: `deps t` is the ordered
list of constructor-parameter identities declared through the `INJECT`
macro for implementation type `t`, and `tyName t` is
`type_name<T>::value()` (the custom `name()` or the `typeid` label). -/
structure TypeUniverse where
  deps : TypeTok → List TypeTok
  tyName : TypeTok → String

/-- Mirrors `Container`: its own registration table (an association list
from type token to the vector of storage indices registered for it,
standing for `registrations_`) and the optional parent pointer. -/
inductive Container where
  | root (regs : List (TypeTok × List Nat))
  | child (regs : List (TypeTok × List Nat)) (parent : Container)
deriving Repr, DecidableEq

def Container.regs : Container → List (TypeTok × List Nat)
  | .root rs => rs
  | .child rs _ => rs

def Container.withRegs : Container → List (TypeTok × List Nat) → Container
  | .root _, rs => .root rs
  | .child _ p, rs => .child rs p

/-- Lookup in one container's `registrations_` map (the local part of
`findInstanceRetrievers`): the vector stored under the key, if any. -/
def localRetrievers (regs : List (TypeTok × List Nat)) (t : TypeTok) : List Nat :=
  match regs.find? (fun p => p.1 == t) with
  | some p => p.2
  | none => []

/-- Mirrors `Container::findInstanceRetrievers`: append the local
matches, then recurse into the parent container. -/
def Container.findInstanceRetrievers : Container → TypeTok → List Nat
  | .root rs, t => localRetrievers rs t
  | .child rs p, t => localRetrievers rs t ++ p.findInstanceRetrievers t

/-- Mirrors `registrations_[make_component_type<TComponent>()]
.emplace_back(...)`: append to the vector under the key, creating the
entry if absent. -/
def regsAdd : List (TypeTok × List Nat) → TypeTok → Nat → List (TypeTok × List Nat)
  | [], t, sid => [(t, [sid])]
  | (k, v) :: rest, t, sid =>
    if k == t then (k, v ++ [sid]) :: rest
    else (k, v) :: regsAdd rest t sid

/-- Mirrors `bind<TComponent>().to<TImplementation>()`: create a fresh
default (transient, empty-cache) storage for `impl`, register it under
`target`, and hand back the storage index (the
`StorageConfiguration` handle). -/
def bindTo (c : Container) (w : World) (target impl : TypeTok) :
    Container × World × Nat :=
  let sid := w.storages.length
  (c.withRegs (regsAdd c.regs target sid),
   { storages := w.storages ++ [⟨impl, false, none⟩], insts := w.insts },
   sid)

/-- Result of one `get`/`getInstance`/`createInstance` call: the
instance index (or error) together with the post-call world and the
post-call component stack of the `InjectionContext`. -/
inductive RRes where
  | ok (inst : Nat) (w : World) (stk : List component_type)
  | err (e : DIError) (w : World) (stk : List component_type)
  | fuelOut
deriving Repr, DecidableEq

/-- Result of resolving a list of constructor dependencies. -/
inductive LRes where
  | ok (args : List Nat) (w : World) (stk : List component_type)
  | err (e : DIError) (w : World) (stk : List component_type)
  | fuelOut
deriving Repr, DecidableEq

def RRes.worldOut : RRes → Option World
  | .ok _ w _ => some w
  | .err _ w _ => some w
  | .fuelOut => none

def RRes.stackOut : RRes → Option (List component_type)
  | .ok _ _ s => some s
  | .err _ _ s => some s
  | .fuelOut => none

def LRes.worldOut : LRes → Option World
  | .ok _ w _ => some w
  | .err _ w _ => some w
  | .fuelOut => none

def LRes.stackOut : LRes → Option (List component_type)
  | .ok _ _ s => some s
  | .err _ _ s => some s
  | .fuelOut => none

/-- Mirrors `ContextGuard::ensureNoCycle`, run on the stack right after
the guard's push: scan every frame below the top for one equal (by
`operator==`, i.e. by type token) to the top frame. -/
def ensureNoCycleFails (stk1 : List component_type) : Bool :=
  stk1.dropLast.any (fun f => ctEq f (stk1.getLastD ⟨0, ""⟩))

/-- Mirrors the chain `ConstructorInvoker::invoke` expands to: resolve
each declared dependency identity, left to right, through the resolver
`r` (which is `container.get` on the context's container), threading
the world and the context stack. -/
def resolveList (r : TypeTok → World → List component_type → RRes) :
    List TypeTok → World → List component_type → LRes
  | [], w, stk => .ok [] w stk
  | d :: rest, w, stk =>
    match r d w stk with
    | .ok i w1 stk1 =>
      match resolveList r rest w1 stk1 with
      | .ok args w2 stk2 => .ok (i :: args) w2 stk2
      | .err e w2 stk2 => .err e w2 stk2
      | .fuelOut => .fuelOut
    | .err e w1 stk1 => .err e w1 stk1
    | .fuelOut => .fuelOut

/-- Mirrors `InstanceStorage::createInstance` plus the factory call it
delegates to: push a guard frame for the implementation's identity
(named by `type_name`), check for a cycle, resolve the declared
dependencies, allocate the new instance, and pop the guard frame on
every exit path (the `ContextGuard` destructor). -/
def createInstance (r : TypeTok → World → List component_type → RRes)
    (U : TypeUniverse) (impl : TypeTok) (w : World)
    (stk : List component_type) : RRes :=
  let g : component_type := ⟨impl, U.tyName impl⟩
  let stk1 := stk ++ [g]
  if ensureNoCycleFails stk1 then
    .err (.circularDependencyFound g) w stk1.dropLast
  else
    match resolveList r (U.deps impl) w stk1 with
    | .ok args w1 stk2 =>
      .ok w1.insts.length ⟨w1.storages, w1.insts ++ [(impl, args)]⟩ stk2.dropLast
    | .err e w1 stk2 => .err e w1 stk2.dropLast
    | .fuelOut => .fuelOut

/-- Mirrors `InstanceStorage::getInstance`: transient storages always
construct; singleton storages construct once, cache the result and then
return the cache. -/
def getInstanceStep (r : TypeTok → World → List component_type → RRes)
    (U : TypeUniverse) (sid : Nat) (w : World)
    (stk : List component_type) : RRes :=
  let s := w.storAt sid
  if !s.isSingleton then
    createInstance r U s.impl w stk
  else
    match s.cached with
    | some i => .ok i w stk
    | none =>
      match createInstance r U s.impl w stk with
      | .ok i w1 stk1 => .ok i (w1.setCached sid i) stk1
      | .err e w1 stk1 => .err e w1 stk1
      | .fuelOut => .fuelOut

/-- Mirrors `Container::get<TInterface>(context)`: collect the candidate
retrievers (local table first, then the parent chain), fail with
`ComponentNotFoundException` when there are none, otherwise forward to
the first candidate's storage.  `origin` is the container held by the
`InjectionContext`, which every nested resolution goes through. -/
def containerGet (U : TypeUniverse) (origin : Container) :
    Nat → TypeTok → World → List component_type → RRes
  | 0, _, _, _ => .fuelOut
  | fuel + 1, t, w, stk =>
    match origin.findInstanceRetrievers t with
    | [] => .err (.componentNotFound ⟨t, ""⟩) w stk
    | sid :: _ => getInstanceStep (containerGet U origin fuel) U sid w stk

/-- The synthetic frame the `InjectionContext` constructor pushes for a
top-level call:
`make_component_type<depInject_unspecified_component>("Unspecified")`. -/
def rootFrame : component_type := ⟨0, "Unspecified"⟩

/-- Mirrors a top-level `container.get<T>()` call (null context): a
fresh `InjectionContext` seeded with the root frame is used for the
whole call tree. -/
def topGet (U : TypeUniverse) (c : Container) (fuel : Nat) (t : TypeTok)
    (w : World) : RRes :=
  containerGet U c fuel t w [rootFrame]

/-- Identity `t` has zero bindings in the container and in every
ancestor on its parent chain. -/
def Container.unbound : Container → TypeTok → Bool
  | .root rs, t => (localRetrievers rs t).isEmpty
  | .child rs p, t => (localRetrievers rs t).isEmpty && p.unbound t

/-- The type tokens of a context stack. -/
def stackToks (stk : List component_type) : List TypeTok :=
  stk.map component_type.typeInfo

/-- Every token a guard frame can ever carry: the root token 0 together
with the implementation tokens of the storages of the world. -/
def allowedToks (w : World) : Finset Nat :=
  (0 :: w.storages.map Storage.impl).toFinset

/-- World evolution along a resolution call: storages are neither added
nor removed, their implementation types and lifetime flags are
untouched, non-singleton storages keep their cache slot, and the
instance log only grows. -/
structure Evolves (w w1 : World) : Prop where
  impls : w1.storages.map Storage.impl = w.storages.map Storage.impl
  sings : w1.storages.map Storage.isSingleton = w.storages.map Storage.isSingleton
  cachedT : ∀ j, (w.storAt j).isSingleton = false →
    (w1.storAt j).cached = (w.storAt j).cached
  instsGrow : ∃ more, w1.insts = w.insts ++ more

/-- The resolver `r` restores the context stack on every non-fuelOut
exit (the `ContextGuard` destructor discipline). -/
def RestoresR (r : TypeTok → World → List component_type → RRes) : Prop :=
  ∀ t w stk s1, (r t w stk).stackOut = some s1 → s1 = stk

/-- The resolver `r` only evolves the world. -/
def EvolvesR (r : TypeTok → World → List component_type → RRes) : Prop :=
  ∀ t w stk w1, (r t w stk).worldOut = some w1 → Evolves w w1

/-- The resolver `r` does not exhaust its fuel `f` whenever the context
stack is duplicate-free, made of allowed tokens, and short enough. -/
def SafeR (f : Nat) (r : TypeTok → World → List component_type → RRes) : Prop :=
  ∀ t w stk, (stackToks stk).Nodup →
    (∀ x ∈ stackToks stk, x ∈ allowedToks w) →
    (allowedToks w).card + 1 ≤ f + stk.length →
    r t w stk ≠ .fuelOut

/-! Concrete scenarios (all built through `bindTo`, the embedding of
`bind().to()`). -/

/-- Universe with no constructor dependencies at all (types such as
`Cheetah` in the tests). -/
def plainU : TypeUniverse :=
  ⟨fun _ => [], fun t => if t == 2 then "Cheetah" else "?"⟩

/-- The `TestSimpleResolve` setup: bind identity 1 (IRunner) to
implementation 2 (Cheetah). -/
def runnerBind := bindTo (.root []) ⟨[], []⟩ 1 2

def runnerC : Container := runnerBind.1

def runnerW : World := runnerBind.2.1

def runnerSid : Nat := runnerBind.2.2

/-- The same setup after `.InSingletonScope()`. -/
def runnerWS : World := runnerW.markSingleton runnerSid

/-- The two-type cycle: A = 1 requires B = 2, B requires A, both bound
to themselves. -/
def cycU : TypeUniverse :=
  ⟨fun t => if t == 1 then [2] else if t == 2 then [1] else [],
   fun t => if t == 1 then "A" else if t == 2 then "B" else "?"⟩

def cycBind1 := bindTo (.root []) ⟨[], []⟩ 1 1

def cycBind2 := bindTo cycBind1.1 cycBind1.2.1 2 2

def cycC : Container := cycBind2.1

def cycW : World := cycBind2.2.1

/-- The `TestCircularDependency` chain: Start = 1 requires Middle = 2,
Middle requires End = 3, End requires Start. -/
def chainU : TypeUniverse :=
  ⟨fun t => if t == 1 then [2] else if t == 2 then [3] else
      if t == 3 then [1] else [],
   fun t => if t == 1 then "Start" else if t == 2 then "Middle" else
      if t == 3 then "End" else "?"⟩

def chainBind1 := bindTo (.root []) ⟨[], []⟩ 1 1

def chainBind2 := bindTo chainBind1.1 chainBind1.2.1 2 2

def chainBind3 := bindTo chainBind2.1 chainBind2.2.1 3 3

def chainC : Container := chainBind3.1

def chainW : World := chainBind3.2.1

/-- A graph with a cycle through identity 1 (1 requires 4 and 2, 2
requires 1) in which the first declared dependency 4 of 1 is unbound. -/
def cexU : TypeUniverse :=
  ⟨fun t => if t == 1 then [4, 2] else if t == 2 then [1] else [],
   fun t => if t == 1 then "A" else if t == 2 then "B" else "?"⟩

def cexBind1 := bindTo (.root []) ⟨[], []⟩ 1 1

def cexBind2 := bindTo cexBind1.1 cexBind1.2.1 2 2

def cexC : Container := cexBind2.1

def cexW : World := cexBind2.2.1

/-- Cross-container wiring: implementation 10 (bound to identity 1 in
the parent) requires identity 2; the parent binds 2 to implementation
20, the child shadows 2 with implementation 21. -/
def nineU : TypeUniverse := ⟨fun t => if t == 10 then [2] else [], fun _ => "?"⟩

def nineBind1 := bindTo (.root []) ⟨[], []⟩ 1 10

def nineBind2 := bindTo nineBind1.1 nineBind1.2.1 2 20

def nineParentC : Container := nineBind2.1

def nineParentW : World := nineBind2.2.1

def nineBind3 := bindTo (.child [] nineParentC) nineParentW 2 21

def nineChildC : Container := nineBind3.1

def nineW : World := nineBind3.2.1

/-- Shadowing scenario for identity 1: parent binds 1 to implementation
2, the child binds 1 to implementation 3. -/
def shadBind1 := bindTo (.root []) ⟨[], []⟩ 1 2

def shadBind2 := bindTo (.child [] shadBind1.1) shadBind1.2.1 1 3

def shadC : Container := shadBind2.1

def shadW : World := shadBind2.2.1

/-- Two bindings for one identity in one container: identity 1 is bound
first to implementation 2, then to implementation 3. -/
def dupBind1 := bindTo (.root []) ⟨[], []⟩ 1 2

def dupBind2 := bindTo dupBind1.1 dupBind1.2.1 1 3

def dupC : Container := dupBind2.1

def dupW : World := dupBind2.2.1

/-- The runner world after one transient resolution. -/
def runnerW1 : World := ⟨[⟨2, false, none⟩], [(2, [])]⟩

/-- The runner world after two transient resolutions. -/
def runnerW2 : World := ⟨[⟨2, false, none⟩], [(2, []), (2, [])]⟩

/-- The singleton runner world after its cache is populated. -/
def runnerWS1 : World := ⟨[⟨2, true, some 0⟩], [(2, [])]⟩

/-- The late-marked singleton runner world after the post-marking
resolution populated the cache. -/
def runnerW2S : World := ⟨[⟨2, true, some 1⟩], [(2, []), (2, [])]⟩

/-! List helper lemmas. -/

theorem list_getD_map {α β : Type} (f : α → β) (l : List α) (n : Nat) (d : α) :
    (l.map f).getD n (f d) = f (l.getD n d) := by
  induction l generalizing n with
  | nil => simp
  | cons x xs ih => cases n <;> simp [ih]

theorem list_set_getD {α : Type} (l : List α) (n : Nat) (d : α) :
    l.set n (l.getD n d) = l := by
  induction l generalizing n with
  | nil => simp
  | cons x xs ih =>
    cases n with
    | zero => simp
    | succ m => simp only [List.set_cons_succ, List.getD_cons_succ, ih]

theorem list_getD_set_self {α : Type} (l : List α) (n : Nat) (a d : α)
    (h : n < l.length) : (l.set n a).getD n d = a := by
  induction l generalizing n with
  | nil => simp at h
  | cons x xs ih =>
    cases n with
    | zero => simp
    | succ m =>
      simp only [List.set_cons_succ, List.getD_cons_succ]
      exact ih m (by simpa using h)

theorem list_getD_set_ne {α : Type} (l : List α) (m n : Nat) (a d : α)
    (h : m ≠ n) : (l.set m a).getD n d = l.getD n d := by
  induction l generalizing m n with
  | nil => simp
  | cons x xs ih =>
    cases m with
    | zero =>
      cases n with
      | zero => exact absurd rfl h
      | succ k => simp
    | succ m1 =>
      cases n with
      | zero => simp
      | succ k =>
        simp only [List.set_cons_succ, List.getD_cons_succ]
        exact ih m1 k (fun e => h (by rw [e]))

theorem list_getD_append_length {α : Type} (l : List α) (a d : α) :
    (l ++ [a]).getD l.length d = a := by
  induction l with
  | nil => simp
  | cons x xs ih => simp [ih]

theorem nodup_length_le_card (l : List Nat) (S : Finset Nat)
    (hnd : l.Nodup) (hsub : ∀ x ∈ l, x ∈ S) : l.length ≤ S.card := by
  have h1 : l.toFinset.card = l.length := List.toFinset_card_of_nodup hnd
  have h2 : l.toFinset ⊆ S := fun x hx => hsub x (List.mem_toFinset.mp hx)
  calc l.length = l.toFinset.card := h1.symm
    _ ≤ S.card := Finset.card_le_card h2

/-! Properties of `Evolves`. -/

theorem Evolves.len {w w1 : World} (h : Evolves w w1) :
    w1.storages.length = w.storages.length := by
  have h1 := congrArg List.length h.impls
  simpa using h1

theorem Evolves.storImpl {w w1 : World} (h : Evolves w w1) (j : Nat) :
    (w1.storAt j).impl = (w.storAt j).impl := by
  have h1 := list_getD_map Storage.impl w1.storages j dfltStorage
  have h2 := list_getD_map Storage.impl w.storages j dfltStorage
  unfold World.storAt
  rw [← h1, ← h2, h.impls]

theorem Evolves.storSing {w w1 : World} (h : Evolves w w1) (j : Nat) :
    (w1.storAt j).isSingleton = (w.storAt j).isSingleton := by
  have h1 := list_getD_map Storage.isSingleton w1.storages j dfltStorage
  have h2 := list_getD_map Storage.isSingleton w.storages j dfltStorage
  unfold World.storAt
  rw [← h1, ← h2, h.sings]

theorem Evolves.instsLen {w w1 : World} (h : Evolves w w1) :
    w.insts.length ≤ w1.insts.length := by
  obtain ⟨more, hm⟩ := h.instsGrow
  simp [hm]

theorem evolves_refl (w : World) : Evolves w w :=
  ⟨rfl, rfl, fun _ _ => rfl, ⟨[], by simp⟩⟩

theorem evolves_trans {w w1 w2 : World} (h1 : Evolves w w1)
    (h2 : Evolves w1 w2) : Evolves w w2 := by
  refine ⟨h2.impls.trans h1.impls, h2.sings.trans h1.sings, ?_, ?_⟩
  · intro j hj
    have hj1 : (w1.storAt j).isSingleton = false := (h1.storSing j).trans hj
    exact (h2.cachedT j hj1).trans (h1.cachedT j hj)
  · obtain ⟨m1, e1⟩ := h1.instsGrow
    obtain ⟨m2, e2⟩ := h2.instsGrow
    exact ⟨m1 ++ m2, by rw [e2, e1, List.append_assoc]⟩

theorem evolves_allowed {w w1 : World} (h : Evolves w w1) :
    allowedToks w1 = allowedToks w := by
  unfold allowedToks
  rw [h.impls]

theorem setCached_evolves (w : World) (sid i : Nat)
    (hs : (w.storAt sid).isSingleton = true) : Evolves w (w.setCached sid i) := by
  refine ⟨?_, ?_, ?_, ⟨[], by simp [World.setCached]⟩⟩
  · show (w.storages.set sid _).map Storage.impl = _
    rw [List.map_set]
    have h1 : Storage.impl { w.storAt sid with cached := some i }
        = (w.storages.map Storage.impl).getD sid (Storage.impl dfltStorage) := by
      rw [list_getD_map]
      rfl
    rw [h1, list_set_getD]
  · show (w.storages.set sid _).map Storage.isSingleton = _
    rw [List.map_set]
    have h1 : Storage.isSingleton { w.storAt sid with cached := some i }
        = (w.storages.map Storage.isSingleton).getD sid (Storage.isSingleton dfltStorage) := by
      rw [list_getD_map]
      rfl
    rw [h1, list_set_getD]
  · intro j hj
    have hne : sid ≠ j := by
      intro e
      rw [e] at hs
      rw [hs] at hj
      exact Bool.true_eq_false.mp hj
    show ((w.storages.set sid _).getD j dfltStorage).cached = _
    rw [list_getD_set_ne _ _ _ _ _ hne]
    rfl

/-! Unfolding lemmas for the resolution functions. -/

theorem containerGet_zero (U : TypeUniverse) (c : Container) (t : TypeTok)
    (w : World) (stk : List component_type) :
    containerGet U c 0 t w stk = .fuelOut := rfl

theorem containerGet_notFound (U : TypeUniverse) (c : Container) (fuel : Nat)
    (t : TypeTok) (w : World) (stk : List component_type)
    (hfind : c.findInstanceRetrievers t = []) :
    containerGet U c (fuel + 1) t w stk
      = .err (.componentNotFound ⟨t, ""⟩) w stk := by
  simp [containerGet, hfind]

theorem containerGet_cons (U : TypeUniverse) (c : Container) (fuel : Nat)
    (t : TypeTok) (w : World) (stk : List component_type) (sid : Nat)
    (rest : List Nat) (hfind : c.findInstanceRetrievers t = sid :: rest) :
    containerGet U c (fuel + 1) t w stk
      = getInstanceStep (containerGet U c fuel) U sid w stk := by
  simp [containerGet, hfind]

theorem getInstanceStep_transient (r : TypeTok → World → List component_type → RRes)
    (U : TypeUniverse) (sid : Nat) (w : World) (stk : List component_type)
    (hs : (w.storAt sid).isSingleton = false) :
    getInstanceStep r U sid w stk = createInstance r U (w.storAt sid).impl w stk := by
  simp [getInstanceStep, hs]

theorem getInstanceStep_cachedHit (r : TypeTok → World → List component_type → RRes)
    (U : TypeUniverse) (sid : Nat) (w : World) (stk : List component_type) (i : Nat)
    (hs : (w.storAt sid).isSingleton = true)
    (hc : (w.storAt sid).cached = some i) :
    getInstanceStep r U sid w stk = .ok i w stk := by
  simp [getInstanceStep, hs, hc]

theorem getInstanceStep_populate (r : TypeTok → World → List component_type → RRes)
    (U : TypeUniverse) (sid : Nat) (w : World) (stk : List component_type)
    (hs : (w.storAt sid).isSingleton = true)
    (hc : (w.storAt sid).cached = none) :
    getInstanceStep r U sid w stk
      = match createInstance r U (w.storAt sid).impl w stk with
        | .ok i w1 s1 => .ok i (w1.setCached sid i) s1
        | .err e w1 s1 => .err e w1 s1
        | .fuelOut => .fuelOut := by
  simp [getInstanceStep, hs, hc]

theorem ensureNoCycleFails_concat (stk : List component_type) (g : component_type) :
    ensureNoCycleFails (stk ++ [g]) = stk.any (fun f => ctEq f g) := by
  simp [ensureNoCycleFails]

theorem createInstance_cycle (r : TypeTok → World → List component_type → RRes)
    (U : TypeUniverse) (impl : TypeTok) (w : World) (stk : List component_type)
    (h : stk.any (fun f => ctEq f ⟨impl, U.tyName impl⟩) = true) :
    createInstance r U impl w stk
      = .err (.circularDependencyFound ⟨impl, U.tyName impl⟩) w stk := by
  simp [createInstance, ensureNoCycleFails_concat, h]

theorem createInstance_noCycle (r : TypeTok → World → List component_type → RRes)
    (U : TypeUniverse) (impl : TypeTok) (w : World) (stk : List component_type)
    (h : stk.any (fun f => ctEq f ⟨impl, U.tyName impl⟩) = false) :
    createInstance r U impl w stk
      = match resolveList r (U.deps impl) w (stk ++ [⟨impl, U.tyName impl⟩]) with
        | .ok args w1 s2 =>
          .ok w1.insts.length ⟨w1.storages, w1.insts ++ [(impl, args)]⟩ s2.dropLast
        | .err e w1 s2 => .err e w1 s2.dropLast
        | .fuelOut => .fuelOut := by
  simp [createInstance, ensureNoCycleFails_concat, h]

/-! Stack restoration: every non-fuelOut exit of the resolution
functions leaves the context stack exactly as it found it (the
`ContextGuard` destructor runs on every path). -/

theorem resolveList_restores {r : TypeTok → World → List component_type → RRes}
    (hr : RestoresR r) :
    ∀ ds w stk s1, (resolveList r ds w stk).stackOut = some s1 → s1 = stk := by
  intro ds
  induction ds with
  | nil =>
    intro w stk s1 h
    simp [resolveList, LRes.stackOut] at h
    exact h.symm
  | cons d rest ih =>
    intro w stk s1 h
    rw [resolveList] at h
    cases hr1 : r d w stk with
    | fuelOut => rw [hr1] at h; simp [LRes.stackOut] at h
    | err e w1 s2 =>
      rw [hr1] at h
      simp [LRes.stackOut] at h
      rw [← h]
      exact hr d w stk s2 (by rw [hr1]; rfl)
    | ok i w1 s2 =>
      simp only [hr1] at h
      have hs2 : s2 = stk := hr d w stk s2 (by rw [hr1]; rfl)
      cases hr2 : resolveList r rest w1 s2 with
      | fuelOut => simp only [hr2] at h; simp [LRes.stackOut] at h
      | err e w2 s3 =>
        simp only [hr2] at h
        simp [LRes.stackOut] at h
        rw [← h, ← hs2]
        exact ih w1 s2 s3 (by rw [hr2]; rfl)
      | ok args w2 s3 =>
        simp only [hr2] at h
        simp [LRes.stackOut] at h
        rw [← h, ← hs2]
        exact ih w1 s2 s3 (by rw [hr2]; rfl)

theorem createInstance_restores {r : TypeTok → World → List component_type → RRes}
    (hr : RestoresR r) (U : TypeUniverse) (impl : TypeTok) (w : World)
    (stk : List component_type) (s1 : List component_type)
    (h : (createInstance r U impl w stk).stackOut = some s1) : s1 = stk := by
  cases hcyc : stk.any (fun f => ctEq f ⟨impl, U.tyName impl⟩) with
  | true =>
    rw [createInstance_cycle r U impl w stk hcyc] at h
    simp [RRes.stackOut] at h
    exact h.symm
  | false =>
    rw [createInstance_noCycle r U impl w stk hcyc] at h
    cases hrl : resolveList r (U.deps impl) w (stk ++ [⟨impl, U.tyName impl⟩]) with
    | fuelOut => rw [hrl] at h; simp [RRes.stackOut] at h
    | ok args w1 s2 =>
      rw [hrl] at h
      simp [RRes.stackOut] at h
      have hs2 : s2 = stk ++ [⟨impl, U.tyName impl⟩] :=
        resolveList_restores hr (U.deps impl) w _ s2 (by rw [hrl]; rfl)
      rw [← h, hs2]
      simp
    | err e w1 s2 =>
      rw [hrl] at h
      simp [RRes.stackOut] at h
      have hs2 : s2 = stk ++ [⟨impl, U.tyName impl⟩] :=
        resolveList_restores hr (U.deps impl) w _ s2 (by rw [hrl]; rfl)
      rw [← h, hs2]
      simp

theorem getInstanceStep_restores {r : TypeTok → World → List component_type → RRes}
    (hr : RestoresR r) (U : TypeUniverse) (sid : Nat) (w : World)
    (stk : List component_type) (s1 : List component_type)
    (h : (getInstanceStep r U sid w stk).stackOut = some s1) : s1 = stk := by
  cases hsing : (w.storAt sid).isSingleton with
  | false =>
    rw [getInstanceStep_transient r U sid w stk hsing] at h
    exact createInstance_restores hr U _ w stk s1 h
  | true =>
    cases hc : (w.storAt sid).cached with
    | some i =>
      rw [getInstanceStep_cachedHit r U sid w stk i hsing hc] at h
      simp [RRes.stackOut] at h
      exact h.symm
    | none =>
      rw [getInstanceStep_populate r U sid w stk hsing hc] at h
      cases hci : createInstance r U (w.storAt sid).impl w stk with
      | fuelOut => rw [hci] at h; simp [RRes.stackOut] at h
      | ok i w1 s2 =>
        rw [hci] at h
        simp [RRes.stackOut] at h
        rw [← h]
        exact createInstance_restores hr U _ w stk s2 (by rw [hci]; rfl)
      | err e w1 s2 =>
        rw [hci] at h
        simp [RRes.stackOut] at h
        rw [← h]
        exact createInstance_restores hr U _ w stk s2 (by rw [hci]; rfl)

theorem containerGet_restores (U : TypeUniverse) (c : Container) :
    ∀ fuel, RestoresR (containerGet U c fuel) := by
  intro fuel
  induction fuel with
  | zero =>
    intro t w stk s1 h
    rw [containerGet_zero] at h
    simp [RRes.stackOut] at h
  | succ f ih =>
    intro t w stk s1 h
    cases hfind : c.findInstanceRetrievers t with
    | nil =>
      rw [containerGet_notFound U c f t w stk hfind] at h
      simp [RRes.stackOut] at h
      exact h.symm
    | cons sid rest =>
      rw [containerGet_cons U c f t w stk sid rest hfind] at h
      exact getInstanceStep_restores ih U sid w stk s1 h

/-! World evolution across the resolution functions. -/

theorem resolveList_evolves {r : TypeTok → World → List component_type → RRes}
    (hr : EvolvesR r) :
    ∀ ds w stk w1, (resolveList r ds w stk).worldOut = some w1 → Evolves w w1 := by
  intro ds
  induction ds with
  | nil =>
    intro w stk w1 h
    simp [resolveList, LRes.worldOut] at h
    rw [← h]
    exact evolves_refl w
  | cons d rest ih =>
    intro w stk w1 h
    rw [resolveList] at h
    cases hr1 : r d w stk with
    | fuelOut => rw [hr1] at h; simp [LRes.worldOut] at h
    | err e wa s2 =>
      rw [hr1] at h
      simp [LRes.worldOut] at h
      rw [← h]
      exact hr d w stk wa (by rw [hr1]; rfl)
    | ok i wa s2 =>
      simp only [hr1] at h
      have hwa : Evolves w wa := hr d w stk wa (by rw [hr1]; rfl)
      cases hr2 : resolveList r rest wa s2 with
      | fuelOut => simp only [hr2] at h; simp [LRes.worldOut] at h
      | err e wb s3 =>
        simp only [hr2] at h
        simp [LRes.worldOut] at h
        rw [← h]
        exact evolves_trans hwa (ih wa s2 wb (by rw [hr2]; rfl))
      | ok args wb s3 =>
        simp only [hr2] at h
        simp [LRes.worldOut] at h
        rw [← h]
        exact evolves_trans hwa (ih wa s2 wb (by rw [hr2]; rfl))

theorem createInstance_evolves {r : TypeTok → World → List component_type → RRes}
    (hr : EvolvesR r) (U : TypeUniverse) (impl : TypeTok) (w : World)
    (stk : List component_type) (w1 : World)
    (h : (createInstance r U impl w stk).worldOut = some w1) : Evolves w w1 := by
  cases hcyc : stk.any (fun f => ctEq f ⟨impl, U.tyName impl⟩) with
  | true =>
    rw [createInstance_cycle r U impl w stk hcyc] at h
    simp [RRes.worldOut] at h
    rw [← h]
    exact evolves_refl w
  | false =>
    rw [createInstance_noCycle r U impl w stk hcyc] at h
    cases hrl : resolveList r (U.deps impl) w (stk ++ [⟨impl, U.tyName impl⟩]) with
    | fuelOut => rw [hrl] at h; simp [RRes.worldOut] at h
    | ok args wa s2 =>
      rw [hrl] at h
      simp [RRes.worldOut] at h
      have hwa : Evolves w wa :=
        resolveList_evolves hr (U.deps impl) w _ wa (by rw [hrl]; rfl)
      rw [← h]
      exact evolves_trans hwa ⟨rfl, rfl, fun _ _ => rfl, ⟨[(impl, args)], rfl⟩⟩
    | err e wa s2 =>
      rw [hrl] at h
      simp [RRes.worldOut] at h
      rw [← h]
      exact resolveList_evolves hr (U.deps impl) w _ wa (by rw [hrl]; rfl)

theorem getInstanceStep_evolves {r : TypeTok → World → List component_type → RRes}
    (hr : EvolvesR r) (U : TypeUniverse) (sid : Nat) (w : World)
    (stk : List component_type) (w1 : World)
    (h : (getInstanceStep r U sid w stk).worldOut = some w1) : Evolves w w1 := by
  cases hsing : (w.storAt sid).isSingleton with
  | false =>
    rw [getInstanceStep_transient r U sid w stk hsing] at h
    exact createInstance_evolves hr U _ w stk w1 h
  | true =>
    cases hc : (w.storAt sid).cached with
    | some i =>
      rw [getInstanceStep_cachedHit r U sid w stk i hsing hc] at h
      simp [RRes.worldOut] at h
      rw [← h]
      exact evolves_refl w
    | none =>
      rw [getInstanceStep_populate r U sid w stk hsing hc] at h
      cases hci : createInstance r U (w.storAt sid).impl w stk with
      | fuelOut => rw [hci] at h; simp [RRes.worldOut] at h
      | ok i wa s2 =>
        rw [hci] at h
        simp [RRes.worldOut] at h
        have hwa : Evolves w wa :=
          createInstance_evolves hr U _ w stk wa (by rw [hci]; rfl)
        have hsa : (wa.storAt sid).isSingleton = true := (hwa.storSing sid).trans hsing
        rw [← h]
        exact evolves_trans hwa (setCached_evolves wa sid i hsa)
      | err e wa s2 =>
        rw [hci] at h
        simp [RRes.worldOut] at h
        rw [← h]
        exact createInstance_evolves hr U _ w stk wa (by rw [hci]; rfl)

theorem containerGet_evolves (U : TypeUniverse) (c : Container) :
    ∀ fuel, EvolvesR (containerGet U c fuel) := by
  intro fuel
  induction fuel with
  | zero =>
    intro t w stk w1 h
    rw [containerGet_zero] at h
    simp [RRes.worldOut] at h
  | succ f ih =>
    intro t w stk w1 h
    cases hfind : c.findInstanceRetrievers t with
    | nil =>
      rw [containerGet_notFound U c f t w stk hfind] at h
      simp [RRes.worldOut] at h
      rw [← h]
      exact evolves_refl w
    | cons sid rest =>
      rw [containerGet_cons U c f t w stk sid rest hfind] at h
      exact getInstanceStep_evolves ih U sid w stk w1 h

/-! Freshness of constructed instances. -/

theorem createInstance_fresh {r : TypeTok → World → List component_type → RRes}
    (hr : EvolvesR r) (U : TypeUniverse) (impl : TypeTok) (w : World)
    (stk : List component_type) (i : Nat) (w1 : World) (s1 : List component_type)
    (h : createInstance r U impl w stk = .ok i w1 s1) :
    w.insts.length ≤ i ∧ i < w1.insts.length ∧
      ∃ args, w1.insts.getD i (0, []) = (impl, args) := by
  cases hcyc : stk.any (fun f => ctEq f ⟨impl, U.tyName impl⟩) with
  | true =>
    rw [createInstance_cycle r U impl w stk hcyc] at h
    exact absurd h (by simp)
  | false =>
    rw [createInstance_noCycle r U impl w stk hcyc] at h
    cases hrl : resolveList r (U.deps impl) w (stk ++ [⟨impl, U.tyName impl⟩]) with
    | fuelOut => rw [hrl] at h; exact absurd h (by simp)
    | err e wa s2 => rw [hrl] at h; exact absurd h (by simp)
    | ok args wa s2 =>
      rw [hrl] at h
      simp only [RRes.ok.injEq] at h
      obtain ⟨hi, hw, _⟩ := h
      have hwa : Evolves w wa :=
        resolveList_evolves hr (U.deps impl) w _ wa (by rw [hrl]; rfl)
      refine ⟨?_, ?_, ?_⟩
      · rw [← hi]
        exact hwa.instsLen
      · rw [← hw, ← hi]
        simp
      · refine ⟨args, ?_⟩
        rw [← hw, ← hi]
        exact list_getD_append_length wa.insts (impl, args) (0, [])

/-! Fuel sufficiency: the stack of guard frames is duplicate-free (else
`ensureNoCycle` throws), its tokens come from the fixed set
`allowedToks`, so its depth — and with it the recursion depth — is
bounded by the number of distinct implementation types plus one. -/

theorem storAt_impl_mem (w : World) (sid : Nat) :
    (w.storAt sid).impl ∈ allowedToks w := by
  by_cases hlt : sid < w.storages.length
  · have h1 : w.storAt sid ∈ w.storages := by
      unfold World.storAt
      rw [List.getD_eq_getElem w.storages dfltStorage hlt]
      exact w.storages.getElem_mem hlt
    have h2 : (w.storAt sid).impl ∈ w.storages.map Storage.impl :=
      List.mem_map_of_mem Storage.impl h1
    unfold allowedToks
    rw [List.mem_toFinset]
    exact List.mem_cons_of_mem 0 h2
  · have h1 : w.storAt sid = dfltStorage := by
      simp [World.storAt, List.getD_eq_getElem?_getD,
        List.getElem?_eq_none (Nat.le_of_not_lt hlt)]
    rw [h1]
    unfold allowedToks
    rw [List.mem_toFinset]
    exact List.mem_cons_self 0 _

theorem resolveList_safe {r : TypeTok → World → List component_type → RRes}
    (f : Nat) (hsafe : SafeR f r) (hres : RestoresR r) (hev : EvolvesR r) :
    ∀ ds w stk, (stackToks stk).Nodup →
      (∀ x ∈ stackToks stk, x ∈ allowedToks w) →
      (allowedToks w).card + 1 ≤ f + stk.length →
      resolveList r ds w stk ≠ .fuelOut := by
  intro ds
  induction ds with
  | nil => intro w stk _ _ _; simp [resolveList]
  | cons d rest ih =>
    intro w stk hnd hsub hcard
    have h1 : r d w stk ≠ .fuelOut := hsafe d w stk hnd hsub hcard
    rw [resolveList]
    cases hr1 : r d w stk with
    | fuelOut => exact absurd hr1 h1
    | err e w1 s2 => simp
    | ok i w1 s2 =>
      have hs2 : s2 = stk := hres d w stk s2 (by rw [hr1]; rfl)
      have hw1 : Evolves w w1 := hev d w stk w1 (by rw [hr1]; rfl)
      have h2 : resolveList r rest w1 s2 ≠ .fuelOut := by
        rw [hs2]
        exact ih w1 stk hnd
          (by rw [evolves_allowed hw1]; exact hsub)
          (by rw [evolves_allowed hw1]; exact hcard)
      cases hr2 : resolveList r rest w1 s2 with
      | fuelOut => exact absurd hr2 h2
      | err e w2 s3 => simp [hr2]
      | ok args w2 s3 => simp [hr2]

theorem createInstance_safe {r : TypeTok → World → List component_type → RRes}
    (f : Nat) (hsafe : SafeR f r) (hres : RestoresR r) (hev : EvolvesR r)
    (U : TypeUniverse) (impl : TypeTok) (w : World) (stk : List component_type)
    (hnd : (stackToks stk).Nodup)
    (hsub : ∀ x ∈ stackToks stk, x ∈ allowedToks w)
    (himpl : impl ∈ allowedToks w)
    (hcard : (allowedToks w).card + 1 ≤ (f + 1) + stk.length) :
    createInstance r U impl w stk ≠ .fuelOut := by
  cases hcyc : stk.any (fun fr => ctEq fr ⟨impl, U.tyName impl⟩) with
  | true => rw [createInstance_cycle r U impl w stk hcyc]; simp
  | false =>
    rw [createInstance_noCycle r U impl w stk hcyc]
    have hnotin : ∀ x ∈ stackToks stk, x ≠ impl := by
      intro x hx
      simp only [stackToks, List.mem_map] at hx
      obtain ⟨fr, hfr, hfx⟩ := hx
      have := List.any_eq_false.mp hcyc fr hfr
      simp only [ctEq, beq_iff_eq] at this
      rw [← hfx]
      exact this
    have htoks : stackToks (stk ++ [⟨impl, U.tyName impl⟩])
        = stackToks stk ++ [impl] := by
      simp [stackToks]
    have hdisj : (stackToks stk).Disjoint [impl] := by
      intro x hx hx2
      exact absurd (by simpa using hx2) (hnotin x hx)
    have hnd1 : (stackToks (stk ++ [⟨impl, U.tyName impl⟩])).Nodup := by
      rw [htoks]
      exact hnd.append (by simp) hdisj
    have hsub1 : ∀ x ∈ stackToks (stk ++ [⟨impl, U.tyName impl⟩]),
        x ∈ allowedToks w := by
      rw [htoks]
      intro x hx
      rcases List.mem_append.mp hx with hx1 | hx1
      · exact hsub x hx1
      · rw [show x = impl by simpa using hx1]
        exact himpl
    have hcard1 : (allowedToks w).card + 1
        ≤ f + (stk ++ [(⟨impl, U.tyName impl⟩ : component_type)]).length := by
      simp only [List.length_append, List.length_cons, List.length_nil]
      omega
    have hrl : resolveList r (U.deps impl) w (stk ++ [⟨impl, U.tyName impl⟩])
        ≠ .fuelOut :=
      resolveList_safe f hsafe hres hev (U.deps impl) _ _ hnd1 hsub1 hcard1
    cases hr2 : resolveList r (U.deps impl) w (stk ++ [⟨impl, U.tyName impl⟩]) with
    | fuelOut => exact absurd hr2 hrl
    | err e w1 s2 => simp
    | ok args w1 s2 => simp

theorem getInstanceStep_safe {r : TypeTok → World → List component_type → RRes}
    (f : Nat) (hsafe : SafeR f r) (hres : RestoresR r) (hev : EvolvesR r)
    (U : TypeUniverse) (sid : Nat) (w : World) (stk : List component_type)
    (hnd : (stackToks stk).Nodup)
    (hsub : ∀ x ∈ stackToks stk, x ∈ allowedToks w)
    (hcard : (allowedToks w).card + 1 ≤ (f + 1) + stk.length) :
    getInstanceStep r U sid w stk ≠ .fuelOut := by
  have hci : createInstance r U (w.storAt sid).impl w stk ≠ .fuelOut :=
    createInstance_safe f hsafe hres hev U _ w stk hnd hsub
      (storAt_impl_mem w sid) hcard
  cases hsing : (w.storAt sid).isSingleton with
  | false => rw [getInstanceStep_transient r U sid w stk hsing]; exact hci
  | true =>
    cases hc : (w.storAt sid).cached with
    | some i => rw [getInstanceStep_cachedHit r U sid w stk i hsing hc]; simp
    | none =>
      rw [getInstanceStep_populate r U sid w stk hsing hc]
      cases hr2 : createInstance r U (w.storAt sid).impl w stk with
      | fuelOut => exact absurd hr2 hci
      | err e w1 s2 => simp
      | ok i w1 s2 => simp

theorem containerGet_safe (U : TypeUniverse) (c : Container) :
    ∀ f, SafeR f (containerGet U c f) := by
  intro f
  induction f with
  | zero =>
    intro t w stk hnd hsub hcard
    have h1 : (stackToks stk).length ≤ (allowedToks w).card :=
      nodup_length_le_card (stackToks stk) (allowedToks w) hnd hsub
    have h2 : (stackToks stk).length = stk.length := by simp [stackToks]
    omega
  | succ f ih =>
    intro t w stk hnd hsub hcard
    cases hfind : c.findInstanceRetrievers t with
    | nil => rw [containerGet_notFound U c f t w stk hfind]; simp
    | cons sid rest =>
      rw [containerGet_cons U c f t w stk sid rest hfind]
      exact getInstanceStep_safe f ih (containerGet_restores U c f)
        (containerGet_evolves U c f) U sid w stk hnd hsub hcard

/-! Registration-table lemmas. -/

theorem localRetrievers_cons_ne (k : TypeTok) (v : List Nat)
    (rest : List (TypeTok × List Nat)) (t : TypeTok) (hk : (k == t) = false) :
    localRetrievers ((k, v) :: rest) t = localRetrievers rest t := by
  simp [localRetrievers, List.find?_cons, hk]

theorem localRetrievers_cons_eq (k : TypeTok) (v : List Nat)
    (rest : List (TypeTok × List Nat)) (t : TypeTok) (hk : (k == t) = true) :
    localRetrievers ((k, v) :: rest) t = v := by
  simp [localRetrievers, List.find?_cons, hk]

theorem regsAdd_same (regs : List (TypeTok × List Nat)) (t : TypeTok) (sid : Nat) :
    localRetrievers (regsAdd regs t sid) t = localRetrievers regs t ++ [sid] := by
  induction regs with
  | nil =>
    rw [show regsAdd [] t sid = [(t, [sid])] from rfl,
        localRetrievers_cons_eq t [sid] [] t (by simp)]
    simp [localRetrievers]
  | cons kv rest ih =>
    obtain ⟨k, v⟩ := kv
    cases hk : k == t with
    | true =>
      simp only [regsAdd, hk, if_true]
      rw [localRetrievers_cons_eq k (v ++ [sid]) rest t hk,
          localRetrievers_cons_eq k v rest t hk]
    | false =>
      simp only [regsAdd, hk, Bool.false_eq_true, if_false]
      rw [localRetrievers_cons_ne k v (regsAdd rest t sid) t hk,
          localRetrievers_cons_ne k v rest t hk]
      exact ih

theorem regsAdd_other (regs : List (TypeTok × List Nat)) (t u : TypeTok) (sid : Nat)
    (hne : u ≠ t) :
    localRetrievers (regsAdd regs t sid) u = localRetrievers regs u := by
  have htu : (t == u) = false := by
    simp only [beq_eq_false_iff_ne, ne_eq]
    exact fun h => hne h.symm
  induction regs with
  | nil =>
    rw [show regsAdd [] t sid = [(t, [sid])] from rfl,
        localRetrievers_cons_ne t [sid] [] u htu]
  | cons kv rest ih =>
    obtain ⟨k, v⟩ := kv
    cases hk : k == t with
    | true =>
      have hkt : k = t := by simpa using hk
      have hku : (k == u) = false := by rw [hkt]; exact htu
      simp only [regsAdd, hk, if_true]
      rw [localRetrievers_cons_ne k (v ++ [sid]) rest u hku,
          localRetrievers_cons_ne k v rest u hku]
    | false =>
      simp only [regsAdd, hk, Bool.false_eq_true, if_false]
      cases hku : k == u with
      | true =>
        rw [localRetrievers_cons_eq k v (regsAdd rest t sid) u hku,
            localRetrievers_cons_eq k v rest u hku]
      | false =>
        rw [localRetrievers_cons_ne k v (regsAdd rest t sid) u hku,
            localRetrievers_cons_ne k v rest u hku]
        exact ih

theorem unbound_retrievers_nil (c : Container) (t : TypeTok)
    (h : c.unbound t = true) : c.findInstanceRetrievers t = [] := by
  induction c with
  | root rs =>
    simp only [Container.unbound, List.isEmpty_iff] at h
    simp [Container.findInstanceRetrievers, h]
  | child rs p ih =>
    simp only [Container.unbound, Bool.and_eq_true, List.isEmpty_iff] at h
    obtain ⟨h1, h2⟩ := h
    simp [Container.findInstanceRetrievers, h1, ih h2]

/-! Storage-slot lemmas. -/

theorem storAt_singleton_lt (w : World) (sid : Nat)
    (h : (w.storAt sid).isSingleton = true) : sid < w.storages.length := by
  by_contra hge
  have h1 : w.storAt sid = dfltStorage := by
    simp [World.storAt, List.getD_eq_getElem?_getD,
      List.getElem?_eq_none (Nat.le_of_not_lt hge)]
  rw [h1] at h
  simp [dfltStorage] at h

theorem storAt_setCached_self (w : World) (sid i : Nat)
    (h : sid < w.storages.length) :
    (w.setCached sid i).storAt sid = { w.storAt sid with cached := some i } := by
  simp only [World.setCached, World.storAt]
  exact list_getD_set_self w.storages sid _ dfltStorage h

theorem storAt_markSingleton_self (w : World) (sid : Nat)
    (h : sid < w.storages.length) :
    (w.markSingleton sid).storAt sid = { w.storAt sid with isSingleton := true } := by
  simp only [World.markSingleton, World.storAt]
  exact list_getD_set_self w.storages sid _ dfltStorage h

/-! Claim theorems. -/

/-- C8: two component identities are equal under `operator==` iff their
underlying type tokens are the same, independently of either identity's
optional display name, and `component_type_hash` depends only on the
type token (for any hash-code function `hc` of the token, modelling the
implementation-defined `type_info::hash_code`), so equal identities hash
equally. -/
theorem C8_identity_equality_and_hash (t u : TypeTok) (n m : String)
    (hc : TypeTok → Nat) :
    (ctEq ⟨t, n⟩ ⟨u, m⟩ = true ↔ t = u) ∧
    component_type_hash hc ⟨t, n⟩ = component_type_hash hc ⟨t, m⟩ ∧
    (ctEq ⟨t, n⟩ ⟨u, m⟩ = true →
      component_type_hash hc ⟨t, n⟩ = component_type_hash hc ⟨u, m⟩) := by
  refine ⟨by simp [ctEq], rfl, ?_⟩
  intro h
  simp only [ctEq, beq_iff_eq] at h
  simp [component_type_hash, h]

/-- Witness for C8 at token 3 with two different display names. -/
theorem C8_witness :
    component_type_hash (fun x => x * 7) ⟨3, "left"⟩
      = component_type_hash (fun x => x * 7) ⟨3, "right"⟩ :=
  (C8_identity_equality_and_hash 3 3 "left" "right" (fun x => x * 7)).2.2 (by decide)

/-- C4: for every identity `t` with zero bindings in the container and
in every ancestor on its parent chain, `get` fails synchronously with
`ComponentNotFoundException` naming `t` (the error carries the
`component_type` built for `t`), for any world, stack and fuel. -/
theorem C4_component_not_found (U : TypeUniverse) (c : Container) (t : TypeTok)
    (w : World) (stk : List component_type) (fuel : Nat)
    (h : c.unbound t = true) :
    containerGet U c (fuel + 1) t w stk
      = .err (.componentNotFound ⟨t, ""⟩) w stk :=
  containerGet_notFound U c fuel t w stk (unbound_retrievers_nil c t h)

/-- Witness for C4: an empty container and the unbound identity 7. -/
theorem C4_witness :
    topGet plainU (.root []) 3 7 ⟨[], []⟩
      = .err (.componentNotFound ⟨7, ""⟩) ⟨[], []⟩ [rootFrame] :=
  C4_component_not_found plainU (.root []) 7 ⟨[], []⟩ [rootFrame] 2 (by decide)

/-- C7: on every exit path of a resolution — success or error, at the
`get` level and at the `createInstance` (guard push/pop) level — the
context stack is restored to its pre-call state; the container's
registration table is a read-only input of `containerGet` and is
untouched by construction (only the world's caches and instance log
change, mirroring the `const` use of `registrations_` in the source). -/
theorem C7_context_stack_restored (U : TypeUniverse) (c : Container)
    (fuel : Nat) (t : TypeTok) (w : World) (stk : List component_type) :
    ((containerGet U c fuel t w stk).stackOut = some stk ∨
      containerGet U c fuel t w stk = .fuelOut) ∧
    ∀ impl : TypeTok,
      ((createInstance (containerGet U c fuel) U impl w stk).stackOut = some stk ∨
        createInstance (containerGet U c fuel) U impl w stk = .fuelOut) := by
  constructor
  · cases hr : containerGet U c fuel t w stk with
    | fuelOut => exact Or.inr rfl
    | ok i w1 s1 =>
      left
      have h1 : s1 = stk := containerGet_restores U c fuel t w stk s1 (by rw [hr]; rfl)
      simp [RRes.stackOut, h1]
    | err e w1 s1 =>
      left
      have h1 : s1 = stk := containerGet_restores U c fuel t w stk s1 (by rw [hr]; rfl)
      simp [RRes.stackOut, h1]
  · intro impl
    cases hr : createInstance (containerGet U c fuel) U impl w stk with
    | fuelOut => exact Or.inr rfl
    | ok i w1 s1 =>
      left
      have h1 : s1 = stk := createInstance_restores (containerGet_restores U c fuel)
        U impl w stk s1 (by rw [hr]; rfl)
      simp [RRes.stackOut, h1]
    | err e w1 s1 =>
      left
      have h1 : s1 = stk := createInstance_restores (containerGet_restores U c fuel)
        U impl w stk s1 (by rw [hr]; rfl)
      simp [RRes.stackOut, h1]

/-- C5: when a child container and some ancestor both bind identity
`t`, candidate lookup places all local bindings before all parent-chain
bindings, the first candidate (a local one) is used, and — in the
concrete shadowing scenario — the instance is built from the child's
own binding (implementation 3, not the parent's 2). -/
theorem C5_local_binding_shadows (rs : List (TypeTok × List Nat))
    (p : Container) (U : TypeUniverse) (t : TypeTok) (w : World)
    (stk : List component_type) (fuel : Nat) (sid : Nat) (rest : List Nat)
    (hloc : localRetrievers rs t = sid :: rest) :
    Container.findInstanceRetrievers (.child rs p) t
      = sid :: (rest ++ p.findInstanceRetrievers t) ∧
    containerGet U (.child rs p) (fuel + 1) t w stk
      = getInstanceStep (containerGet U (.child rs p) fuel) U sid w stk ∧
    topGet plainU shadC 3 1 shadW
      = .ok 0 ⟨shadW.storages, [(3, [])]⟩ [rootFrame] := by
  have h1 : Container.findInstanceRetrievers (.child rs p) t
      = sid :: (rest ++ p.findInstanceRetrievers t) := by
    simp [Container.findInstanceRetrievers, hloc]
  exact ⟨h1, containerGet_cons U _ fuel t w stk sid _ h1, by decide⟩

/-- Witness for C5: a one-entry local table in front of an empty
parent. -/
theorem C5_witness :
    Container.findInstanceRetrievers (.child [(1, [5])] (.root [])) 1
      = 5 :: ([] ++ Container.findInstanceRetrievers (.root []) 1) :=
  (C5_local_binding_shadows [(1, [5])] (.root []) plainU 1 ⟨[], []⟩ [rootFrame]
    2 5 [] (by decide)).1

/-- C6: `bind(t).to(impl)` is purely additive — it appends one binding
for `t` (keeping all earlier ones in front), leaves every other
identity's bindings untouched, appends one fresh storage without
disturbing existing ones — and when one container holds two bindings
for the same identity, resolution uses the earliest-registered one
(implementation 2, not 3, in the concrete scenario). -/
theorem C6_bind_additive (regs : List (TypeTok × List Nat)) (t u : TypeTok)
    (sid : Nat) (c : Container) (w : World) (impl : TypeTok) (hne : u ≠ t) :
    localRetrievers (regsAdd regs t sid) t = localRetrievers regs t ++ [sid] ∧
    localRetrievers (regsAdd regs t sid) u = localRetrievers regs u ∧
    (bindTo c w t impl).2.1.storages = w.storages ++ [⟨impl, false, none⟩] ∧
    topGet plainU dupC 3 1 dupW = .ok 0 ⟨dupW.storages, [(2, [])]⟩ [rootFrame] :=
  ⟨regsAdd_same regs t sid, regsAdd_other regs t u sid hne, rfl, by decide⟩

/-- Witness for C6: appending a second binding for identity 1. -/
theorem C6_witness :
    localRetrievers (regsAdd [(1, [0])] 1 1) 1 = localRetrievers [(1, [0])] 1 ++ [1] :=
  (C6_bind_additive [(1, [0])] 1 2 1 (.root []) ⟨[], []⟩ 9 (by decide)).1

/-- C9: nested dependencies are resolved through the container stored
in the `InjectionContext` (the one that initiated the top-level get),
not through the container owning the binding under construction: the
child resolves identity 1 via the parent's binding (implementation 10),
yet 10's dependency on identity 2 is satisfied by the child's shadowing
binding 21; the same resolution started on the parent uses 20. -/
theorem C9_deps_resolved_through_origin :
    topGet nineU nineChildC 9 1 nineW
      = .ok 1 ⟨nineW.storages, [(21, []), (10, [0])]⟩ [rootFrame] ∧
    topGet nineU nineParentC 9 1 nineParentW
      = .ok 1 ⟨nineParentW.storages, [(20, []), (10, [0])]⟩ [rootFrame] :=
  ⟨by decide, by decide⟩

/-- C1 counterexample: identity 1 lies on the cycle 1 → 2 → 1 of `cexU`
(1 requires 4 and 2, 2 requires 1), yet resolving 1 raises
`ComponentNotFoundException` for the unbound first dependency 4 — not
`CircularDependencyFound` — refuting the claim as stated for graphs
that merely contain a cycle. -/
theorem C1_counterexample :
    topGet cexU cexC 9 1 cexW
      = .err (.componentNotFound ⟨4, ""⟩) cexW [rootFrame] := by decide

/-- C1 (amended): resolution never recurses unboundedly — any fuel of
at least `(0 :: impls).dedup.length` (the number of distinct
implementation types plus the root frame, independent of container
nesting depth) is never exhausted — and for the pure dependency cycles
A⇄B and Start→Middle→End→Start, resolving an identity on the cycle
fails with `CircularDependencyFound` naming the repeated identity. -/
theorem C1_cycle_detection :
    (∀ (U : TypeUniverse) (c : Container) (t : TypeTok) (w : World) (fuel : Nat),
      (0 :: w.storages.map Storage.impl).dedup.length ≤ fuel →
      topGet U c fuel t w ≠ .fuelOut) ∧
    topGet cycU cycC 5 1 cycW
      = .err (.circularDependencyFound ⟨1, "A"⟩) cycW [rootFrame] ∧
    topGet chainU chainC 7 1 chainW
      = .err (.circularDependencyFound ⟨1, "Start"⟩) chainW [rootFrame] := by
  refine ⟨?_, by decide, by decide⟩
  intro U c t w fuel hfuel
  have hcard : (allowedToks w).card = (0 :: w.storages.map Storage.impl).dedup.length :=
    List.card_toFinset _
  apply containerGet_safe U c fuel t w [rootFrame]
  · simp [stackToks, rootFrame]
  · intro x hx
    have hx0 : x = 0 := by simpa [stackToks, rootFrame] using hx
    rw [hx0]
    unfold allowedToks
    rw [List.mem_toFinset]
    exact List.mem_cons_self 0 _
  · simp only [List.length_cons, List.length_nil]
    omega

/-- Witness for C1: the A⇄B cycle world with fuel 5 ≥ its 3 distinct
tokens. -/
theorem C1_witness : topGet cycU cycC 5 1 cycW ≠ .fuelOut :=
  C1_cycle_detection.1 cycU cycC 1 cycW 5 (by decide)

/-- C2: for a singleton-scoped first binding, any successful resolve
leaves the instance cached in the storage, and every consecutive
resolve for the same identity returns that same instance with the world
unchanged — in particular the instance log does not grow, so the
construction factory is not invoked again (it runs at most once, during
the first resolution). -/
theorem C2_singleton_same_instance (U : TypeUniverse) (c : Container)
    (t : TypeTok) (w : World) (stk s1 : List component_type) (sid : Nat)
    (rest : List Nat) (f i : Nat) (w1 : World)
    (hfind : c.findInstanceRetrievers t = sid :: rest)
    (hs : (w.storAt sid).isSingleton = true)
    (h1 : containerGet U c (f + 1) t w stk = .ok i w1 s1) :
    (w1.storAt sid).cached = some i ∧
    ∀ (g : Nat) (stk2 : List component_type),
      containerGet U c (g + 1) t w1 stk2 = .ok i w1 stk2 := by
  rw [containerGet_cons U c f t w stk sid rest hfind] at h1
  have hmain : (w1.storAt sid).cached = some i ∧
      (w1.storAt sid).isSingleton = true := by
    cases hc : (w.storAt sid).cached with
    | some j =>
      rw [getInstanceStep_cachedHit (containerGet U c f) U sid w stk j hs hc] at h1
      simp only [RRes.ok.injEq] at h1
      obtain ⟨hj, hw, _⟩ := h1
      rw [← hw, ← hj]
      exact ⟨hc, hs⟩
    | none =>
      rw [getInstanceStep_populate (containerGet U c f) U sid w stk hs hc] at h1
      cases hci : createInstance (containerGet U c f) U (w.storAt sid).impl w stk with
      | fuelOut => simp only [hci] at h1; simp at h1
      | err e wa s2 => simp only [hci] at h1; simp at h1
      | ok k wa s2 =>
        simp only [hci, RRes.ok.injEq] at h1
        obtain ⟨hk, hw, _⟩ := h1
        have hwa : Evolves w wa := createInstance_evolves
          (containerGet_evolves U c f) U _ w stk wa (by rw [hci]; rfl)
        have hsidw : sid < w.storages.length := storAt_singleton_lt w sid hs
        have hsida : sid < wa.storages.length := by rw [hwa.len]; exact hsidw
        have hself := storAt_setCached_self wa sid k hsida
        rw [← hw, ← hk, hself]
        exact ⟨rfl, (hwa.storSing sid).trans hs⟩
  refine ⟨hmain.1, ?_⟩
  intro g stk2
  rw [containerGet_cons U c g t w1 stk2 sid rest hfind,
      getInstanceStep_cachedHit (containerGet U c g) U sid w1 stk2 i hmain.2 hmain.1]

/-- Witness for C2: the singleton Cheetah binding; after the first
resolve the cache holds instance 0 and a second resolve returns it with
the world unchanged. -/
theorem C2_witness :
    (runnerWS1.storAt 0).cached = some 0 ∧
    containerGet plainU runnerC 3 1 runnerWS1 [rootFrame] = .ok 0 runnerWS1 [rootFrame] := by
  have h := C2_singleton_same_instance plainU runnerC 1 runnerWS [rootFrame] [rootFrame]
    0 [] 2 0 runnerWS1 (by decide) (by decide) (by decide)
  exact ⟨h.1, h.2 2 [rootFrame]⟩

/-- C3: for a transient (default) first binding, two consecutive
successful resolves for the same identity return distinct instances,
and each call grows the instance log — i.e. each call invokes the
construction factory. -/
theorem C3_transient_distinct (U : TypeUniverse) (c : Container) (t : TypeTok)
    (w : World) (stk stk2 s1 s2 : List component_type) (sid : Nat)
    (rest : List Nat) (f g i1 i2 : Nat) (w1 w2 : World)
    (hfind : c.findInstanceRetrievers t = sid :: rest)
    (hs : (w.storAt sid).isSingleton = false)
    (h1 : containerGet U c (f + 1) t w stk = .ok i1 w1 s1)
    (h2 : containerGet U c (g + 1) t w1 stk2 = .ok i2 w2 s2) :
    i1 ≠ i2 ∧ w.insts.length < w1.insts.length ∧
      w1.insts.length < w2.insts.length := by
  rw [containerGet_cons U c f t w stk sid rest hfind,
      getInstanceStep_transient (containerGet U c f) U sid w stk hs] at h1
  have hf1 := createInstance_fresh (containerGet_evolves U c f) U _ w stk i1 w1 s1 h1
  have hwa : Evolves w w1 := createInstance_evolves (containerGet_evolves U c f)
    U _ w stk w1 (by rw [h1]; rfl)
  have hs1 : (w1.storAt sid).isSingleton = false := (hwa.storSing sid).trans hs
  rw [containerGet_cons U c g t w1 stk2 sid rest hfind,
      getInstanceStep_transient (containerGet U c g) U sid w1 stk2 hs1] at h2
  have hf2 := createInstance_fresh (containerGet_evolves U c g) U _ w1 stk2 i2 w2 s2 h2
  obtain ⟨ha1, hb1, _⟩ := hf1
  obtain ⟨ha2, hb2, _⟩ := hf2
  omega

/-- Witness for C3: the transient Cheetah binding; the two consecutive
resolves return instances 0 and 1 and the log grows each time. -/
theorem C3_witness :
    (0 : Nat) ≠ 1 ∧ runnerW.insts.length < runnerW1.insts.length ∧
      runnerW1.insts.length < runnerW2.insts.length :=
  C3_transient_distinct plainU runnerC 1 runnerW [rootFrame] [rootFrame]
    [rootFrame] [rootFrame] 0 [] 2 2 0 1 runnerW1 runnerW2
    (by decide) (by decide) (by decide) (by decide)

/-- C10: calling `InSingletonScope` after a resolution has already
happened has no retroactive effect — the instance returned before the
call stays distinct from the one constructed after it — while the first
resolve after the call constructs one more instance, caches it, and
every subsequent resolve returns that cached instance with the world
unchanged. -/
theorem C10_singleton_after_resolution (U : TypeUniverse) (c : Container)
    (t : TypeTok) (w : World) (stk s1 : List component_type) (sid : Nat)
    (rest : List Nat) (f i1 : Nat) (w1 : World) (ic : TypeTok)
    (hfind : c.findInstanceRetrievers t = sid :: rest)
    (hsid : sid < w.storages.length)
    (hstor : w.storAt sid = ⟨ic, false, none⟩)
    (h1 : containerGet U c (f + 1) t w stk = .ok i1 w1 s1) :
    ∀ (g : Nat) (stk2 s2 : List component_type) (i2 : Nat) (w2 : World),
      containerGet U c (g + 1) t (w1.markSingleton sid) stk2 = .ok i2 w2 s2 →
      i1 ≠ i2 ∧ (w2.storAt sid).cached = some i2 ∧
      ∀ (k : Nat) (stk3 : List component_type),
        containerGet U c (k + 1) t w2 stk3 = .ok i2 w2 stk3 := by
  have hsF : (w.storAt sid).isSingleton = false := by rw [hstor]
  rw [containerGet_cons U c f t w stk sid rest hfind,
      getInstanceStep_transient (containerGet U c f) U sid w stk hsF] at h1
  have hf1 := createInstance_fresh (containerGet_evolves U c f) U _ w stk i1 w1 s1 h1
  have hw1 : Evolves w w1 := createInstance_evolves (containerGet_evolves U c f)
    U _ w stk w1 (by rw [h1]; rfl)
  have hsid1 : sid < w1.storages.length := by rw [hw1.len]; exact hsid
  have hms := storAt_markSingleton_self w1 sid hsid1
  have hcash1 : (w1.storAt sid).cached = none := by
    rw [hw1.cachedT sid hsF, hstor]
  have hsT : ((w1.markSingleton sid).storAt sid).isSingleton = true := by rw [hms]
  have hcN : ((w1.markSingleton sid).storAt sid).cached = none := by
    rw [hms]
    exact hcash1
  intro g stk2 s2 i2 w2 h2
  rw [containerGet_cons U c g t (w1.markSingleton sid) stk2 sid rest hfind,
      getInstanceStep_populate (containerGet U c g) U sid (w1.markSingleton sid)
        stk2 hsT hcN] at h2
  cases hci : createInstance (containerGet U c g) U
      ((w1.markSingleton sid).storAt sid).impl (w1.markSingleton sid) stk2 with
  | fuelOut => simp only [hci] at h2; simp at h2
  | err e wb sb => simp only [hci] at h2; simp at h2
  | ok k wb sb =>
    simp only [hci, RRes.ok.injEq] at h2
    obtain ⟨hk, hw2, _⟩ := h2
    have hfr := createInstance_fresh (containerGet_evolves U c g) U _
      (w1.markSingleton sid) stk2 k wb sb hci
    have hwb : Evolves (w1.markSingleton sid) wb := createInstance_evolves
      (containerGet_evolves U c g) U _ _ stk2 wb (by rw [hci]; rfl)
    have hlenMS : (w1.markSingleton sid).storages.length = w1.storages.length := by
      simp [World.markSingleton]
    have hsidb : sid < wb.storages.length := by
      rw [hwb.len, hlenMS]
      exact hsid1
    have hselfb := storAt_setCached_self wb sid k hsidb
    have hkk : i1 < k := by
      have hx1 : i1 < w1.insts.length := hf1.2.1
      have hx2 : (w1.markSingleton sid).insts.length ≤ k := hfr.1
      have hx3 : (w1.markSingleton sid).insts.length = w1.insts.length := rfl
      omega
    refine ⟨by omega, ?_, ?_⟩
    · rw [← hw2, ← hk, hselfb]
    · intro k2 stk3
      have hflag2 : (w2.storAt sid).isSingleton = true := by
        rw [← hw2, hselfb]
        show (wb.storAt sid).isSingleton = true
        exact (hwb.storSing sid).trans hsT
      have hcache2 : (w2.storAt sid).cached = some i2 := by
        rw [← hw2, ← hk, hselfb]
      rw [containerGet_cons U c k2 t w2 stk3 sid rest hfind,
          getInstanceStep_cachedHit (containerGet U c k2) U sid w2 stk3 i2
            hflag2 hcache2]

/-- Witness for C10: Cheetah resolved once transiently (instance 0),
then marked singleton; the next resolve constructs and caches instance
1 and the following resolve returns it unchanged. -/
theorem C10_witness :
    (0 : Nat) ≠ 1 ∧ (runnerW2S.storAt 0).cached = some 1 ∧
    containerGet plainU runnerC 3 1 runnerW2S [rootFrame]
      = .ok 1 runnerW2S [rootFrame] := by
  have h := C10_singleton_after_resolution plainU runnerC 1 runnerW [rootFrame]
    [rootFrame] 0 [] 2 0 runnerW1 2 (by decide) (by decide) (by decide) (by decide)
  have h2 := h 2 [rootFrame] [rootFrame] 1 runnerW2S (by decide)
  exact ⟨h2.1, h2.2.1, h2.2.2 2 [rootFrame]⟩

end DepInject
